import Mathlib

/-!
# Verification of the embedding inference engine

Shallow embedding of the core of `ml-inference-server-rust`:
the candle tensor operations used by `src/infrastructure/sentence_transformer.rs`,
the model registry of `src/infrastructure/model_loader.rs`, and the
use-case validation layer of `src/application/use_cases.rs`.

Tensor values are modelled over `ℚ` (the idealisation of `f32` arithmetic);
the model forward pass and the tokenizer are parameters of the definitions,
exactly as the Rust code receives them as injected components.
-/

namespace Inference

/-- A candle tensor: a dimension list and a total valuation on index lists.
Indices outside `dims` are irrelevant to the operations modelled here. -/
structure Tensor where
  dims : List ℕ
  val : List ℕ → ℚ

instance : Inhabited Tensor := ⟨⟨[], fun _ => 0⟩⟩

/-- `Tensor::new(&ids[..], device)` on a `u32` slice: a rank-1 tensor of token ids. -/
def Tensor.ofIds (xs : List ℕ) : Tensor :=
  ⟨[xs.length], fun idx => ((xs.getD (idx.headD 0) 0 : ℕ) : ℚ)⟩

/-- `.unsqueeze(0)`: prepend a dimension of size 1. -/
def Tensor.unsqueeze0 (t : Tensor) : Tensor :=
  ⟨1 :: t.dims, fun idx => t.val idx.tail⟩

/-- `.zeros_like()`. -/
def Tensor.zerosLike (t : Tensor) : Tensor :=
  ⟨t.dims, fun _ => 0⟩

/-- `Tensor::stack(&ts, 0)`. -/
def Tensor.stack0 (ts : List Tensor) : Tensor :=
  ⟨ts.length :: (ts.headD default).dims,
   fun idx => (ts.getD (idx.headD 0) default).val idx.tail⟩

/-- `.sum(d)`: sum out dimension `d`. -/
def Tensor.sumDim (t : Tensor) (d : ℕ) : Tensor :=
  ⟨t.dims.eraseIdx d,
   fun idx => ∑ j ∈ Finset.range (t.dims.getD d 0), t.val (idx.insertIdx d j)⟩

/-- `.sum_keepdim(d)`: sum over dimension `d`, keeping it with size 1. -/
def Tensor.sumKeepdim (t : Tensor) (d : ℕ) : Tensor :=
  ⟨t.dims.set d 1,
   fun idx => ∑ j ∈ Finset.range (t.dims.getD d 0), t.val (idx.set d j)⟩

/-- `.sqr()`: elementwise square. -/
def Tensor.sqr (t : Tensor) : Tensor :=
  ⟨t.dims, fun idx => t.val idx * t.val idx⟩

/-- `.sqrt()`: elementwise square root, parameterised by the scalar
square-root function `sqrtFn` (the `f64` `sqrt` of the source). -/
def Tensor.sqrtT (t : Tensor) (sqrtFn : ℚ → ℚ) : Tensor :=
  ⟨t.dims, fun idx => sqrtFn (t.val idx)⟩

/-- Division of a tensor by a scalar (`t / (n as f64)`). -/
def Tensor.divScalar (t : Tensor) (c : ℚ) : Tensor :=
  ⟨t.dims, fun idx => t.val idx / c⟩

/-- `.broadcast_div(&b)` for operands of equal rank: a size-1 dimension of
`b` is broadcast by reading index 0 there. -/
def Tensor.broadcastDiv (a b : Tensor) : Tensor :=
  ⟨a.dims,
   fun idx => a.val idx / b.val (List.zipWith (fun d i => if d = 1 then 0 else i) b.dims idx)⟩

/-- `.get(i)`: select index `i` of the leading dimension. -/
def Tensor.get0 (t : Tensor) (i : ℕ) : Tensor :=
  ⟨t.dims.tail, fun idx => t.val (i :: idx)⟩

/-- `.to_vec1::<f32>()`: succeeds only on a rank-1 tensor (candle returns an
unexpected-rank error otherwise). -/
def Tensor.toVec1 (t : Tensor) : Option (List ℚ) :=
  if t.dims.length = 1 then
    some ((List.range (t.dims.headD 0)).map fun j => t.val [j])
  else
    none

/-- `.dims3()`: succeeds only on a rank-3 tensor. -/
def Tensor.dims3 (t : Tensor) : Option (ℕ × ℕ × ℕ) :=
  match t.dims with
  | [a, b, c] => some (a, b, c)
  | _ => none

/-- The type of the injected model forward pass
`model.forward(&token_ids, &token_type_ids, attention_mask)`. -/
abbrev Fwd := Tensor → Tensor → Option Tensor → Tensor

/-- `normalize_l2` (sentence_transformer.rs lines 116-118):
`v.broadcast_div(&v.sqr()?.sum_keepdim(1)?.sqrt()?)`. -/
def normalizeL2 (sqrtFn : ℚ → ℚ) (v : Tensor) : Tensor :=
  v.broadcastDiv ((v.sqr.sumKeepdim 1).sqrtT sqrtFn)

/-- Length of the longest tokenization in the batch: the target length of
`PaddingStrategy::BatchLongest` configured in model_loader.rs lines 73-82. -/
def batchMaxLen (tok : String → List ℕ) (texts : List String) : ℕ :=
  ((texts.map tok).map List.length).foldr max 0

/-- Token ids padded to length `L` with the pad id 0. -/
def padIds (L : ℕ) (xs : List ℕ) : List ℕ :=
  xs ++ List.replicate (L - xs.length) 0

/-- Attention mask produced by the tokenizer for a padded sequence:
1 on real token positions, 0 on pad positions. -/
def attnMask (L : ℕ) (xs : List ℕ) : List ℕ :=
  List.replicate xs.length 1 ++ List.replicate (L - xs.length) 0

/-- The stacked `[batch, seq]` token-id tensor of `encode_batch_texts`
(tokenize each text, pad to the batch-longest length, stack at dim 0). -/
def stackedIds (tok : String → List ℕ) (texts : List String) : Tensor :=
  Tensor.stack0 (((texts.map tok).map (padIds (batchMaxLen tok texts))).map Tensor.ofIds)

/-- The stacked `[batch, seq]` attention-mask tensor of `encode_batch_texts`. -/
def stackedMask (tok : String → List ℕ) (texts : List String) : Tensor :=
  Tensor.stack0 (((texts.map tok).map (attnMask (batchMaxLen tok texts))).map Tensor.ofIds)

/-- The batch forward pass of `encode_batch_texts` (lines 85-90):
`model.forward(&token_ids, &token_type_ids, Some(&attention_mask))`. -/
def batchForward (fwd : Fwd) (tok : String → List ℕ) (texts : List String) : Tensor :=
  fwd (stackedIds tok texts) ((stackedIds tok texts).zerosLike) (some (stackedMask tok texts))

/-- The result-collection loop of `encode_batch_texts` (lines 106-111):
`for i in 0..texts.len() { result.push(final_embeddings.get(i)?.to_vec1()?) }`. -/
def rowsLoop (t : Tensor) : List ℕ → Option (List (List ℚ))
  | [] => some []
  | i :: is =>
    match (t.get0 i).toVec1 with
    | none => none
    | some v =>
      match rowsLoop t is with
      | none => none
      | some vs => some (v :: vs)

/-- `encode_batch_texts` (sentence_transformer.rs lines 64-114): tokenize with
batch-longest padding, stack, forward with the attention mask, mean-pool by
`embeddings.sum(1)? / (n_tokens as f64)`, optionally L2-normalize, then
collect one vector per input text. -/
def encodeBatchTexts (sqrtFn : ℚ → ℚ) (fwd : Fwd) (tok : String → List ℕ)
    (texts : List String) (normalize : Bool) : Option (List (List ℚ)) :=
  let embeddings := batchForward fwd tok texts
  match embeddings.dims3 with
  | none => none
  | some (_nSentence, nTokens, _hiddenSize) =>
    let pooled := (embeddings.sumDim 1).divScalar (nTokens : ℚ)
    let finalEmb := if normalize then normalizeL2 sqrtFn pooled else pooled
    rowsLoop finalEmb (List.range texts.length)

/-- `encode_single_text` (sentence_transformer.rs lines 43-62): tokenize one
text, run the forward pass with no attention mask, optionally apply
`normalize_l2`, then call `to_vec1` on the result. No pooling is applied. -/
def encodeSingleText (sqrtFn : ℚ → ℚ) (fwd : Fwd) (tok : String → List ℕ)
    (text : String) (normalize : Bool) : Option (List (List ℚ)) :=
  let tokenIds := (Tensor.ofIds (tok text)).unsqueeze0
  let tokenTypeIds := tokenIds.zerosLike
  let ys := fwd tokenIds tokenTypeIds none
  let embedding := if normalize then normalizeL2 sqrtFn ys else ys
  match embedding.toVec1 with
  | none => none
  | some v => some [v]

/-- `encode_texts` (sentence_transformer.rs lines 26-41): dispatch to the
single-text path for one text, the batch path otherwise. -/
def encodeTexts (sqrtFn : ℚ → ℚ) (fwd : Fwd) (tok : String → List ℕ)
    (texts : List String) (normalize : Bool) : Option (List (List ℚ)) :=
  if texts.length = 1 then
    encodeSingleText sqrtFn fwd tok (texts.headD "") normalize
  else
    encodeBatchTexts sqrtFn fwd tok texts normalize

/-- The mean-pooled value of the batch path at sequence `i`, hidden unit `h`:
the sum of hidden states over ALL token positions (pads included) divided by
the padded sequence length, exactly as computed at lines 93-95. -/
def pooledVal (fwd : Fwd) (tok : String → List ℕ) (texts : List String)
    (i h : ℕ) : ℚ :=
  let emb := batchForward fwd tok texts
  (∑ t ∈ Finset.range (emb.dims.getD 1 0), emb.val [i, t, h]) / (emb.dims.getD 1 0 : ℚ)

/-- The broadcast row index used by `broadcast_div` when the batch
dimension of the divisor is 1. -/
def adjRow (fwd : Fwd) (tok : String → List ℕ) (texts : List String) (i : ℕ) : ℕ :=
  if (batchForward fwd tok texts).dims.getD 0 0 = 1 then 0 else i

/-- Sum of squares of the pooled vector of row `i`. -/
def rowSumSq (fwd : Fwd) (tok : String → List ℕ) (texts : List String) (i : ℕ) : ℚ :=
  ∑ h ∈ Finset.range ((batchForward fwd tok texts).dims.getD 2 0),
    pooledVal fwd tok texts i h * pooledVal fwd tok texts i h

/-- The per-row denominator produced by `normalize_l2` on the pooled batch:
`sqrt` of the sum of squares of the (broadcast-adjusted) row. -/
def rowNormDenom (sqrtFn : ℚ → ℚ) (fwd : Fwd) (tok : String → List ℕ)
    (texts : List String) (i : ℕ) : ℚ :=
  sqrtFn (rowSumSq fwd tok texts (adjRow fwd tok texts i))

/-- The embedding the batch path produces for row `i`. -/
def rowEmbedding (sqrtFn : ℚ → ℚ) (fwd : Fwd) (tok : String → List ℕ)
    (texts : List String) (normalize : Bool) (i : ℕ) : List ℚ :=
  (List.range ((batchForward fwd tok texts).dims.getD 2 0)).map fun h =>
    if normalize then
      pooledVal fwd tok texts i h / rowNormDenom sqrtFn fwd tok texts i
    else
      pooledVal fwd tok texts i h

/-- Modelled from the spec (§4.3 step 3), for comparison with the code's
pooling: mask-aware mean pooling — per sequence, the sum of hidden states
weighted by the attention mask, divided by the attention-mask sum, on the
same tokenized, padded and forwarded batch the code builds. -/
def specMaskedPool (fwd : Fwd) (tok : String → List ℕ) (texts : List String)
    (i h : ℕ) : ℚ :=
  let emb := batchForward fwd tok texts
  let mask := stackedMask tok texts
  (∑ t ∈ Finset.range (emb.dims.getD 1 0), mask.val [i, t] * emb.val [i, t, h]) /
  (∑ t ∈ Finset.range (emb.dims.getD 1 0), mask.val [i, t])

/-- Sum of squares of a vector (the square of its L2 norm). -/
def sumSq (w : List ℚ) : ℚ :=
  (w.map fun x => x * x).sum

/-- `ModelConfig` (domain/entities.rs lines 3-10). -/
structure ModelConfig where
  model_id : String
  tokenizer_repo : String
  revision : Option String
  max_sequence_length : ℕ
  device : String
deriving DecidableEq

/-- `ModelConfig::default()` (domain/entities.rs lines 12-22). -/
def ModelConfig.default : ModelConfig :=
  ⟨"sentence-transformers/all-MiniLM-L6-v2",
   "sentence-transformers/all-MiniLM-L6-v2", none, 512, "cpu"⟩

/-- `ModelComponents` (model_loader.rs lines 19-24); the weights-bound model
and the tokenizer are abstracted as opaque handles delivered by the hub. -/
structure ModelComponents where
  model : ℕ
  tokenizer : ℕ
  device : String
  config : ModelConfig
deriving DecidableEq

/-- `device_str.to_lowercase()`, modelled character-wise. -/
def toLowerStr (s : String) : String :=
  ⟨s.data.map Char.toLower⟩

/-- `get_device` (model_loader.rs lines 104-134) in a build without the
`cuda`/`metal` features: every branch resolves to the CPU device, with the
accelerator branches and the unknown branch falling back with a warning. -/
def getDevice (s : String) : String :=
  match toLowerStr s with
  | "cpu" => "cpu"
  | "cuda" => "cpu"
  | "gpu" => "cpu"
  | "metal" => "cpu"
  | _ => "cpu"

/-- The compiled-in default repository `(model_id, revision)`
(model_loader.rs lines 136-138). -/
def defaultRepo : String × String :=
  ("sentence-transformers/all-MiniLM-L6-v2", "refs/pr/21")

/-- Repository actually fetched by `download_and_load_model`
(model_loader.rs lines 47-52): an empty `model_id` silently falls back to
the default model, otherwise the config's id with revision defaulting to
"main". -/
def effectiveRepo (cfg : ModelConfig) : String × String :=
  if cfg.model_id.isEmpty then defaultRepo
  else (cfg.model_id, cfg.revision.getD "main")

/-- The artifact-retrieval collaborator: given a `(model_id, revision)`
repository, returns the weights and tokenizer handles, or `none` when
retrieval or deserialization fails. -/
abbrev Hub := String × String → Option (ℕ × ℕ)

/-- `download_and_load_model` (model_loader.rs lines 41-102): resolve
the repository, fetch artifacts, construct the full `ModelComponents`.
No field of the config is validated. -/
def downloadAndLoadModel (hub : Hub) (cfg : ModelConfig) : Option ModelComponents :=
  match hub (effectiveRepo cfg) with
  | none => none
  | some r => some ⟨r.1, r.2, getDevice cfg.device, cfg⟩

/-- `load_model` (model_loader.rs lines 143-149): construct the components
first; only on success acquire the write lock and replace the cell in a
single assignment. Returns the call result and the new cell contents. -/
def loadModel (hub : Hub) (cfg : ModelConfig) (st : Option ModelComponents) :
    Except String Unit × Option ModelComponents :=
  match downloadAndLoadModel hub cfg with
  | none => (Except.error "Model loading failed", st)
  | some c => (Except.ok (), some c)

/-- `get_current_config` (model_loader.rs lines 151-157). -/
def getCurrentConfig (st : Option ModelComponents) : Except String ModelConfig :=
  match st with
  | some c => Except.ok c.config
  | none => Except.error "No model loaded"

/-- `switch_model` (sentence_transformer.rs lines 149-151): delegates
directly to `load_model` with no validation of the config. -/
def switchModel (hub : Hub) (cfg : ModelConfig) (st : Option ModelComponents) :
    Except String Unit × Option ModelComponents :=
  loadModel hub cfg st

/-- One registry load call: the config passed and what the hub returned
for it. -/
abbrev LoadOp := ModelConfig × Option (ℕ × ℕ)

/-- Apply one load call to the registry cell (its result value dropped). -/
def applyLoad (st : Option ModelComponents) (op : LoadOp) : Option ModelComponents :=
  (loadModel (fun _ => op.2) op.1 st).2

/-- The registry cell after a history of load calls, starting from the
initial empty cell (`CandleModelLoader::new`, model_loader.rs lines 30-35). -/
def runLoads (ops : List LoadOp) : Option ModelComponents :=
  ops.foldl applyLoad none

/-- Fold step computing the last successful load of a history. -/
def lastSuccessStep (acc : Option (ModelConfig × ℕ × ℕ)) (op : LoadOp) :
    Option (ModelConfig × ℕ × ℕ) :=
  match op.2 with
  | some r => some (op.1, r)
  | none => acc

/-- The last successful load in a history, if any. -/
def lastSuccess (ops : List LoadOp) : Option (ModelConfig × ℕ × ℕ) :=
  ops.foldl lastSuccessStep none

/-!
## The swap transition system

`load_model` constructs the components before taking the write lock and
replaces the cell in one assignment; `encode_texts` takes the read lock and
observes the cell once. The cell is modelled with a type that CAN represent
a partially constructed model, so that the invariant "no reader ever
observes a torn model" is not vacuous.
-/

/-- A possibly partially-constructed model record: each field may be
missing. The code's `ModelComponents` is only ever built complete, but the
state space lets a torn value be represented. -/
structure PartialModel where
  model : Option ℕ
  tokenizer : Option ℕ
  device : Option String
  config : Option ModelConfig
deriving DecidableEq

/-- View a fully constructed `ModelComponents` as a (complete) record. -/
def ModelComponents.toPartial (c : ModelComponents) : PartialModel :=
  ⟨some c.model, some c.tokenizer, some c.device, some c.config⟩

/-- A record is complete when every field is present. -/
def PartialModel.complete (p : PartialModel) : Bool :=
  p.model.isSome && p.tokenizer.isSome && p.device.isSome && p.config.isSome

/-- The local state of the in-progress `switch_model`: not yet constructed,
construction finished with a full `ModelComponents`, or call finished. -/
inductive LoaderPhase where
  | idle : LoaderPhase
  | constructed : ModelComponents → LoaderPhase
  | done : LoaderPhase
deriving DecidableEq

/-- Global state: the registry cell, the loader's local phase, and the
cell values observed so far by concurrent `encode` reads. -/
structure SwapState where
  cell : Option PartialModel
  loader : LoaderPhase
  reads : List (Option PartialModel)
deriving DecidableEq

/-- Interleaved small-step semantics of one `switch_model` running against
concurrent `encode` reads (model_loader.rs lines 143-149 and
sentence_transformer.rs lines 26-32):
* `construct`: `download_and_load_model` succeeds in the loader's local
  frame, before any lock is taken — the cell is untouched;
* `constructFail`: it fails; the error is returned and the cell untouched;
* `commit`: the single assignment `*model_guard = Some(components)` under
  the write lock, storing the fully constructed record;
* `read`: an `encode` call acquires the read lock and observes the cell. -/
inductive SwapStep (hub : Hub) : SwapState → SwapState → Prop where
  | construct (s : SwapState) (cfg : ModelConfig) (c : ModelComponents) :
      s.loader = LoaderPhase.idle → downloadAndLoadModel hub cfg = some c →
      SwapStep hub s ⟨s.cell, LoaderPhase.constructed c, s.reads⟩
  | constructFail (s : SwapState) (cfg : ModelConfig) :
      s.loader = LoaderPhase.idle → downloadAndLoadModel hub cfg = none →
      SwapStep hub s ⟨s.cell, LoaderPhase.done, s.reads⟩
  | commit (s : SwapState) (c : ModelComponents) :
      s.loader = LoaderPhase.constructed c →
      SwapStep hub s ⟨some c.toPartial, LoaderPhase.done, s.reads⟩
  | read (s : SwapState) :
      SwapStep hub s ⟨s.cell, s.loader, s.cell :: s.reads⟩

/-- Reflexive-transitive closure of `SwapStep`. -/
inductive SwapReach (hub : Hub) : SwapState → SwapState → Prop where
  | refl (s : SwapState) : SwapReach hub s s
  | tail (s t u : SwapState) : SwapReach hub s t → SwapStep hub t u → SwapReach hub s u

/-- Initial state: the cell holds the old model (or nothing), no reads yet. -/
def initState (cell₀ : Option ModelComponents) : SwapState :=
  ⟨cell₀.map ModelComponents.toPartial, LoaderPhase.idle, []⟩

/-- A cell value is sound when it is the old model (or emptiness) or a
fully constructed output of `download_and_load_model`. -/
def CellOk (hub : Hub) (cell₀ : Option ModelComponents) (x : Option PartialModel) : Prop :=
  x = cell₀.map ModelComponents.toPartial ∨
  ∃ cfg c, downloadAndLoadModel hub cfg = some c ∧ x = some c.toPartial

/-- The loader's local phase is sound when any constructed components it
holds are an output of a successful `download_and_load_model`. -/
def LoaderOk (hub : Hub) (ph : LoaderPhase) : Prop :=
  ∀ c, ph = LoaderPhase.constructed c → ∃ cfg, downloadAndLoadModel hub cfg = some c

/-!
## The use-case layer
-/

/-- `EmbeddingResponse` (domain/entities.rs lines 40-45). -/
structure EmbeddingResponse where
  embedding : List ℚ
  text : String
  model_id : String
deriving DecidableEq

/-- `BatchEmbeddingResponse` (domain/entities.rs lines 71-76). -/
structure BatchEmbeddingResponse where
  embeddings : List (List ℚ)
  texts : List String
  model_id : String
deriving DecidableEq

/-- `text.trim().is_empty()`: the text contains nothing but whitespace,
i.e. stripping leading and trailing whitespace leaves the empty string. -/
def trimEmpty (s : String) : Bool :=
  s.toList.all Char.isWhitespace

/-- `EmbeddingUseCase::encode_single` (use_cases.rs lines 24-46): reject
text that trims to empty, require a current config, delegate to the
embedding service, reject an empty returned embedding. -/
def encodeSingleUseCase (repo : Except String ModelConfig)
    (service : String → Bool → Except String EmbeddingResponse)
    (text : String) (normalize : Bool) : Except String EmbeddingResponse :=
  if trimEmpty text then Except.error "Text cannot be empty"
  else
    match repo with
    | Except.error e => Except.error e
    | Except.ok _ =>
      match service text normalize with
      | Except.error e => Except.error e
      | Except.ok resp =>
        if resp.embedding.isEmpty then Except.error "Failed to generate embedding"
        else Except.ok resp

/-- The texts kept by `encode_batch`'s filter (use_cases.rs lines 55-57):
those that do not trim to empty. -/
def validTexts (texts : List String) : List String :=
  texts.filter fun t => !trimEmpty t

/-- The stage of `encode_batch` after the batch-size check passed
(use_cases.rs lines 69-84): config lookup, service call, non-empty check. -/
def afterSizeCheck (repo : Except String ModelConfig)
    (service : List String → Bool → Except String BatchEmbeddingResponse)
    (nonEmpty : List String) (normalize : Bool) : Except String BatchEmbeddingResponse :=
  match repo with
  | Except.error e => Except.error e
  | Except.ok _ =>
    match service nonEmpty normalize with
    | Except.error e => Except.error e
    | Except.ok resp =>
      if resp.embeddings.isEmpty then Except.error "Failed to generate any embeddings"
      else Except.ok resp

/-- `EmbeddingUseCase::encode_batch` (use_cases.rs lines 49-85): reject an
empty list, filter out texts that trim to empty, reject when nothing is
left, reject when more than `MAX_BATCH_SIZE = 100` remain (with the sized
message), then proceed. -/
def encodeBatchUseCase (repo : Except String ModelConfig)
    (service : List String → Bool → Except String BatchEmbeddingResponse)
    (texts : List String) (normalize : Bool) : Except String BatchEmbeddingResponse :=
  if texts.isEmpty then Except.error "Text list cannot be empty"
  else
    let nonEmpty := validTexts texts
    if nonEmpty.isEmpty then Except.error "All texts are empty"
    else if nonEmpty.length > 100 then
      Except.error ("Batch size " ++ toString nonEmpty.length ++ " exceeds maximum 100")
    else afterSizeCheck repo service nonEmpty normalize

/-- `SentenceTransformerService::encode_batch` (sentence_transformer.rs
lines 134-143): run `encode_texts` on the request texts, look up the
current config, and echo the request's texts in the response. `enc` is the
`encode_texts` stage; a tensor-level failure surfaces as an error. -/
def serviceEncodeBatch (enc : List String → Bool → Option (List (List ℚ)))
    (cfgRes : Except String ModelConfig)
    (texts : List String) (normalize : Bool) : Except String BatchEmbeddingResponse :=
  match enc texts normalize with
  | none => Except.error "Encoding failed"
  | some es =>
    match cfgRes with
    | Except.error e => Except.error e
    | Except.ok cfg => Except.ok ⟨es, texts, cfg.model_id⟩

/-!
## Concrete components for witnesses and counterexamples
-/

/-- A concrete tokenizer: distinct ids, lengths 1 and 2 so that a batch
containing both "a" and "bb" needs padding. -/
def tokEx : String → List ℕ := fun s =>
  if s = "a" then [5] else if s = "bb" then [6, 7] else [9]

/-- A concrete BERT-like forward pass: output dims are the input dims with
a hidden dimension of size 1 appended; hidden state 1 at sequence 0
position 0, 4 at sequence 0 later (pad) positions, 2 elsewhere. -/
def fwdEx : Fwd := fun tid _ _ =>
  ⟨tid.dims ++ [1],
   fun idx => if idx.headD 0 = 0 then (if idx.getD 1 0 = 0 then 1 else 4) else 2⟩

/-- A concrete constant forward pass: every hidden state is 2. -/
def fwdC3 : Fwd := fun tid _ _ => ⟨tid.dims ++ [1], fun _ => 2⟩

/-- A concrete constant forward pass: every hidden state is 1. -/
def fwdOne : Fwd := fun tid _ _ => ⟨tid.dims ++ [1], fun _ => 1⟩

/-- The constant-one square-root function (exact on 1). -/
def sqrtOne : ℚ → ℚ := fun _ => 1

/-- A concrete square-root function, exact on the value 4. -/
def sqrtEx : ℚ → ℚ := fun q => if q = 4 then 2 else 1

/-- A concrete config with an out-of-range `max_sequence_length` of 0. -/
def cfgZeroLen : ModelConfig := ⟨"some-model", "some-tokenizer", none, 0, "cpu"⟩

/-- A hub on which every artifact fetch succeeds. -/
def hubOk : Hub := fun _ => some (1, 2)

/-- A concrete repository read result. -/
def repoW : Except String ModelConfig := Except.ok ModelConfig.default

/-- A concrete always-succeeding batch embedding service. -/
def serviceBW : List String → Bool → Except String BatchEmbeddingResponse :=
  fun ts _ => Except.ok ⟨ts.map fun _ => [1], ts, "m"⟩

/-- A concrete always-succeeding single embedding service. -/
def serviceSW : String → Bool → Except String EmbeddingResponse :=
  fun t _ => Except.ok ⟨[1], t, "m"⟩

end Inference

namespace Inference

/-! ## Helper lemmas -/

theorem validTexts_nil : validTexts [] = [] := rfl

theorem validTexts_ne_nil_of_length {texts : List String} {k : ℕ}
    (h : (validTexts texts).length = k) (hk : 0 < k) : validTexts texts ≠ [] := by
  intro hnil
  rw [hnil] at h
  simp at h
  omega

theorem texts_ne_nil_of_valid {texts : List String} (h : validTexts texts ≠ []) :
    texts ≠ [] := by
  intro hnil
  rw [hnil] at h
  exact h validTexts_nil

/-! ## Claim theorems -/

/-- C7: `encode_single` of a text that trims to empty fails with the
validation error before the service (hence the tokenizer) is consulted;
`encode_batch` of an empty list fails with the empty-batch error; and
`encode_batch` of a non-empty list whose texts all trim to empty fails
with the all-texts-empty error — each for every service and repository. -/
theorem empty_inputs_rejected (repo : Except String ModelConfig)
    (svcS : String → Bool → Except String EmbeddingResponse)
    (svcB : List String → Bool → Except String BatchEmbeddingResponse)
    (normalize : Bool) :
    (∀ text, trimEmpty text = true →
      encodeSingleUseCase repo svcS text normalize = Except.error "Text cannot be empty") ∧
    (encodeBatchUseCase repo svcB [] normalize = Except.error "Text list cannot be empty") ∧
    (∀ texts, texts ≠ [] → (∀ t ∈ texts, trimEmpty t = true) →
      encodeBatchUseCase repo svcB texts normalize = Except.error "All texts are empty") := by
  refine ⟨fun text h => ?_, by simp [encodeBatchUseCase], fun texts hne hall => ?_⟩
  · simp [encodeSingleUseCase, h]
  · have hfilter : validTexts texts = [] := by
      simp only [validTexts, List.filter_eq_nil_iff]
      intro t ht
      simp [hall t ht]
    cases texts with
    | nil => exact absurd rfl hne
    | cons a l => simp [encodeBatchUseCase, hfilter]

/-- Witness for `empty_inputs_rejected` at the spec's concrete inputs. -/
theorem empty_inputs_rejected_witness :
    encodeSingleUseCase repoW serviceSW "" true = Except.error "Text cannot be empty" ∧
    encodeSingleUseCase repoW serviceSW "   " true = Except.error "Text cannot be empty" ∧
    encodeBatchUseCase repoW serviceBW [] true = Except.error "Text list cannot be empty" ∧
    encodeBatchUseCase repoW serviceBW ["", "  "] true = Except.error "All texts are empty" :=
  ⟨(empty_inputs_rejected repoW serviceSW serviceBW true).1 "" (by decide),
   (empty_inputs_rejected repoW serviceSW serviceBW true).1 "   " (by decide),
   (empty_inputs_rejected repoW serviceSW serviceBW true).2.1,
   (empty_inputs_rejected repoW serviceSW serviceBW true).2.2 ["", "  "] (by decide)
     (by decide)⟩

/-- C6: `encode_batch` with more than 100 valid texts fails with the error
message naming the size and the limit, for every service and repository
(so before any tensor work); with exactly 100 valid texts the batch-size
check passes and the call proceeds to the post-check stage. -/
theorem batch_size_limit (repo : Except String ModelConfig)
    (service : List String → Bool → Except String BatchEmbeddingResponse)
    (texts : List String) (normalize : Bool) :
    ((validTexts texts).length > 100 →
      encodeBatchUseCase repo service texts normalize =
        Except.error ("Batch size " ++ toString (validTexts texts).length ++
          " exceeds maximum 100")) ∧
    ((validTexts texts).length = 100 →
      encodeBatchUseCase repo service texts normalize =
        afterSizeCheck repo service (validTexts texts) normalize) := by
  constructor
  · intro h
    have h1 : validTexts texts ≠ [] := validTexts_ne_nil_of_length rfl (by omega)
    have h2 : texts ≠ [] := texts_ne_nil_of_valid h1
    cases texts with
    | nil => exact absurd rfl h2
    | cons a l =>
      have hvne : (validTexts (a :: l)).isEmpty = false := by
        simp [List.isEmpty_iff, h1]
      simp [encodeBatchUseCase, hvne, h]
  · intro h
    have h1 : validTexts texts ≠ [] := validTexts_ne_nil_of_length h (by omega)
    have h2 : texts ≠ [] := texts_ne_nil_of_valid h1
    cases texts with
    | nil => exact absurd rfl h2
    | cons a l =>
      have hvne : (validTexts (a :: l)).isEmpty = false := by
        simp [List.isEmpty_iff, h1]
      have hnot : ¬ (validTexts (a :: l)).length > 100 := by omega
      simp [encodeBatchUseCase, hvne, hnot]

/-- Witness for `batch_size_limit`: 101 valid texts are rejected with the
sized message, 100 valid texts pass the batch-size check. -/
theorem batch_size_limit_witness :
    encodeBatchUseCase repoW serviceBW (List.replicate 101 "a") true =
      Except.error ("Batch size " ++ toString (validTexts (List.replicate 101 "a")).length ++
        " exceeds maximum 100") ∧
    encodeBatchUseCase repoW serviceBW (List.replicate 100 "a") true =
      afterSizeCheck repoW serviceBW (validTexts (List.replicate 100 "a")) true :=
  ⟨(batch_size_limit repoW serviceBW (List.replicate 101 "a") true).1 (by decide),
   (batch_size_limit repoW serviceBW (List.replicate 100 "a") true).2 (by decide)⟩

theorem lastSuccess_shift (ops : List LoadOp) : ∀ acc,
    ops.foldl lastSuccessStep acc =
      match ops.foldl lastSuccessStep none with
      | none => acc
      | some x => some x := by
  induction ops with
  | nil => intro acc; simp
  | cons op ops ih =>
    intro acc
    simp only [List.foldl_cons]
    rw [ih (lastSuccessStep acc op), ih (lastSuccessStep none op)]
    cases hop : op.2 with
    | none =>
      simp only [lastSuccessStep, hop]
      cases ops.foldl lastSuccessStep none <;> simp
    | some r =>
      simp only [lastSuccessStep, hop]
      cases ops.foldl lastSuccessStep none <;> simp

theorem runLoads_shift (ops : List LoadOp) : ∀ (st : Option ModelComponents),
    ops.foldl applyLoad st =
      match ops.foldl lastSuccessStep none with
      | none => st
      | some (cfg, r) => some ⟨r.1, r.2, getDevice cfg.device, cfg⟩ := by
  induction ops with
  | nil => intro st; simp
  | cons op ops ih =>
    intro st
    simp only [List.foldl_cons]
    rw [ih (applyLoad st op), lastSuccess_shift ops (lastSuccessStep none op)]
    cases hop : op.2 with
    | none =>
      have ha : applyLoad st op = st := by
        simp [applyLoad, loadModel, downloadAndLoadModel, hop]
      rw [ha]
      simp only [lastSuccessStep, hop]
      cases ops.foldl lastSuccessStep none <;> simp
    | some r =>
      have ha : applyLoad st op = some ⟨r.1, r.2, getDevice op.1.device, op.1⟩ := by
        simp [applyLoad, loadModel, downloadAndLoadModel, hop]
      rw [ha]
      simp only [lastSuccessStep, hop]
      cases ops.foldl lastSuccessStep none <;> simp

/-- C9: after any history of registry load calls, reading the current
config fails with the no-model error exactly when no load in the history
ever succeeded; otherwise it returns the config of the last successful
load — the active model. -/
theorem current_config_after_loads (ops : List LoadOp) :
    (getCurrentConfig (runLoads ops) =
      match lastSuccess ops with
      | none => Except.error "No model loaded"
      | some (cfg, _) => Except.ok cfg) ∧
    (lastSuccess ops = none ↔ ∀ op ∈ ops, op.2 = (none : Option (ℕ × ℕ))) := by
  constructor
  · rw [runLoads, runLoads_shift, lastSuccess]
    cases ops.foldl lastSuccessStep none with
    | none => rfl
    | some x => rfl
  · induction ops with
    | nil => simp [lastSuccess]
    | cons op ops ih =>
      rw [lastSuccess, List.foldl_cons, lastSuccess_shift ops (lastSuccessStep none op)]
      rw [lastSuccess] at ih
      constructor
      · intro hnone
        have hF : List.foldl lastSuccessStep none ops = none := by
          cases hF : List.foldl lastSuccessStep none ops with
          | none => rfl
          | some x => rw [hF] at hnone; simp at hnone
        rw [hF] at hnone
        have hop : op.2 = none := by
          cases hop : op.2 with
          | none => rfl
          | some r => simp [lastSuccessStep, hop] at hnone
        intro o ho
        rcases List.mem_cons.mp ho with h | h
        · rw [h]; exact hop
        · exact ih.mp hF o h
      · intro hall
        have hop : op.2 = none := hall op (List.mem_cons_self op ops)
        have hF : List.foldl lastSuccessStep none ops = none :=
          ih.mpr fun o ho => hall o (List.mem_cons_of_mem op ho)
        rw [hF]
        simp [lastSuccessStep, hop]

/-- The C5 claim is false on the code: `switch_model` with
`max_sequence_length = 0` does not fail with a validation error before a
load attempt — the load is attempted, succeeds, and installs the model. -/
theorem switch_model_no_validation_cex :
    (switchModel hubOk cfgZeroLen none).1 = Except.ok () ∧
    (switchModel hubOk cfgZeroLen none).2 = some ⟨1, 2, "cpu", cfgZeroLen⟩ := by
  constructor <;>
    simp [switchModel, loadModel, downloadAndLoadModel, hubOk, effectiveRepo, cfgZeroLen,
      getDevice, toLowerStr]

/-- C5 amended: `switch_model` performs no validation at all — for every
config violating the claimed bounds (`max_sequence_length = 0` or
`> 8192`, or an empty model id or tokenizer reference) it still forwards
the config to the loader; when the artifact fetch succeeds the load
succeeds and replaces the current model with one built from that very
config. -/
theorem switch_model_skips_validation (hub : Hub) (cfg : ModelConfig)
    (st : Option ModelComponents) (r : ℕ × ℕ)
    (_hbad : cfg.max_sequence_length = 0 ∨ 8192 < cfg.max_sequence_length ∨
      cfg.model_id = "" ∨ cfg.tokenizer_repo = "")
    (hhub : hub (effectiveRepo cfg) = some r) :
    switchModel hub cfg st = (Except.ok (), some ⟨r.1, r.2, getDevice cfg.device, cfg⟩) := by
  simp [switchModel, loadModel, downloadAndLoadModel, hhub]

/-- Witness for `switch_model_skips_validation` at the zero-length config. -/
theorem switch_model_skips_validation_witness :
    switchModel hubOk cfgZeroLen none =
      (Except.ok (), some ⟨1, 2, getDevice cfgZeroLen.device, cfgZeroLen⟩) :=
  switch_model_skips_validation hubOk cfgZeroLen none (1, 2) (Or.inl rfl) rfl

theorem rowsLoop_eq_map (t : Tensor) (g : ℕ → List ℚ) :
    ∀ is : List ℕ, (∀ i ∈ is, (t.get0 i).toVec1 = some (g i)) →
      rowsLoop t is = some (is.map g) := by
  intro is
  induction is with
  | nil => intro _; rfl
  | cons i is ih =>
    intro h
    have hi := h i (List.mem_cons_self i is)
    have hrest := ih fun j hj => h j (List.mem_cons_of_mem i hj)
    simp [rowsLoop, hi, hrest]

theorem toVec1_get0 (t : Tensor) (n H i : ℕ) (hdims : t.dims = [n, H]) :
    (t.get0 i).toVec1 = some ((List.range H).map fun h => t.val [i, h]) := by
  simp [Tensor.get0, Tensor.toVec1, hdims]

theorem sum_map_range (f : ℕ → ℚ) : ∀ k : ℕ,
    ((List.range k).map f).sum = ∑ j ∈ Finset.range k, f j := by
  intro k
  induction k with
  | zero => simp
  | succ m ih => rw [List.range_succ, Finset.sum_range_succ, List.map_append, List.sum_append]; simp [ih]

theorem encodeBatch_eq (sqrtFn : ℚ → ℚ) (fwd : Fwd) (tok : String → List ℕ)
    (texts : List String) (normalize : Bool) (n L H : ℕ)
    (hdims : (batchForward fwd tok texts).dims = [n, L, H]) :
    encodeBatchTexts sqrtFn fwd tok texts normalize =
      some ((List.range texts.length).map (rowEmbedding sqrtFn fwd tok texts normalize)) := by
  have h3 : (batchForward fwd tok texts).dims3 = some (n, L, H) := by
    unfold Tensor.dims3
    rw [hdims]
  simp only [encodeBatchTexts, h3]
  have hpooled : (((batchForward fwd tok texts).sumDim 1).divScalar (L : ℚ)).dims = [n, H] := by
    simp [Tensor.sumDim, Tensor.divScalar, hdims]
  have hfinal : (if normalize then
      normalizeL2 sqrtFn (((batchForward fwd tok texts).sumDim 1).divScalar (L : ℚ))
    else ((batchForward fwd tok texts).sumDim 1).divScalar (L : ℚ)).dims = [n, H] := by
    cases normalize <;> simp [normalizeL2, Tensor.broadcastDiv, hpooled]
  apply rowsLoop_eq_map
  intro i _
  rw [toVec1_get0 _ n H i hfinal]
  congr 1
  have hH : (batchForward fwd tok texts).dims.getD 2 0 = H := by rw [hdims]; rfl
  have hL : (batchForward fwd tok texts).dims.getD 1 0 = L := by rw [hdims]; rfl
  have hn : (batchForward fwd tok texts).dims.getD 0 0 = n := by rw [hdims]; rfl
  rw [rowEmbedding, hH]
  apply List.map_congr_left
  intro h _
  cases normalize with
  | false =>
    simp only [Bool.false_eq_true, if_false, pooledVal, hL, Tensor.divScalar, Tensor.sumDim]
    simp [List.insertIdx_succ_cons, List.insertIdx_zero]
  | true =>
    simp only [if_true, pooledVal, rowNormDenom, rowSumSq, adjRow, hL, hH, hn]
    simp only [normalizeL2, Tensor.broadcastDiv, Tensor.sqrtT, Tensor.sumKeepdim, Tensor.sqr,
      Tensor.divScalar, Tensor.sumDim, hdims]
    simp only [List.eraseIdx, List.set, List.zipWith, List.getD, List.get?]
    simp [List.insertIdx_succ_cons, List.insertIdx_zero]

/-- The C1 claim is false on the code: on the batch `["a", "bb"]` (lengths
1 and 2, so "a" is padded), with hidden states 1 at the real position and
4 at the pad position of sequence 0, the code returns `(1 + 4) / 2 = 5/2`
for sequence 0 — the pad position entered the sum and the denominator is
the padded length 2 — while mask-aware pooling on the same forwarded batch
gives `1 / 1 = 1`. -/
theorem mean_pool_not_mask_aware_cex :
    encodeBatchTexts sqrtEx fwdEx tokEx ["a", "bb"] false = some [[5/2], [2]] ∧
    specMaskedPool fwdEx tokEx ["a", "bb"] 0 0 = 1 ∧
    ((5 : ℚ)/2 ≠ 1) := by
  refine ⟨?_, ?_, by norm_num⟩
  · simp [encodeBatchTexts, batchForward, stackedIds, stackedMask, Tensor.stack0, Tensor.ofIds,
      batchMaxLen, padIds, attnMask, tokEx, fwdEx, Tensor.dims3, Tensor.sumDim, Tensor.divScalar,
      Tensor.zerosLike, rowsLoop, Tensor.get0, Tensor.toVec1, List.range_succ,
      Finset.sum_range_succ]
    norm_num
  · simp [specMaskedPool, batchForward, stackedIds, stackedMask, Tensor.stack0, Tensor.ofIds,
      batchMaxLen, padIds, attnMask, tokEx, fwdEx, Tensor.zerosLike, Finset.sum_range_succ]

/-- C1 amended: for every batch, the mean-pooling step sums the hidden
states over ALL token positions of the padded batch — pad positions
included — and divides by the padded sequence length `n_tokens`, not by
the per-sequence attention-mask count. -/
theorem mean_pool_sums_all_positions (sqrtFn : ℚ → ℚ) (fwd : Fwd) (tok : String → List ℕ)
    (texts : List String) (n L H : ℕ)
    (hdims : (batchForward fwd tok texts).dims = [n, L, H]) :
    encodeBatchTexts sqrtFn fwd tok texts false =
      some ((List.range texts.length).map fun i =>
        (List.range H).map fun h =>
          (∑ t ∈ Finset.range L, (batchForward fwd tok texts).val [i, t, h]) / (L : ℚ)) := by
  rw [encodeBatch_eq sqrtFn fwd tok texts false n L H hdims]
  simp [rowEmbedding, pooledVal, hdims]

/-- Witness for `mean_pool_sums_all_positions` on the padded batch
`["a", "bb"]`. -/
theorem mean_pool_sums_all_positions_witness :
    encodeBatchTexts sqrtEx fwdEx tokEx ["a", "bb"] false =
      some ((List.range (["a", "bb"] : List String).length).map fun i =>
        (List.range 1).map fun h =>
          (∑ t ∈ Finset.range 2, (batchForward fwdEx tokEx ["a", "bb"]).val [i, t, h]) / 2) :=
  mean_pool_sums_all_positions sqrtEx fwdEx tokEx ["a", "bb"] 2 2 1 (by decide)

/-- C8: the batch path returns exactly one embedding per input text, in
input order: the result is `some rs` with `rs.length = texts.length`, the
`i`-th entry of `rs` is the pooled/normalized readout of row `i` of the
forward output, and row `i` of the stacked token-id tensor fed to the
forward pass holds precisely the padded tokenization of the `i`-th text. -/
theorem encode_batch_preserves_order (sqrtFn : ℚ → ℚ) (fwd : Fwd) (tok : String → List ℕ)
    (texts : List String) (normalize : Bool) (n L H : ℕ)
    (hdims : (batchForward fwd tok texts).dims = [n, L, H]) :
    ∃ rs, encodeBatchTexts sqrtFn fwd tok texts normalize = some rs ∧
      rs.length = texts.length ∧
      (∀ i, i < texts.length → rs.getD i [] = rowEmbedding sqrtFn fwd tok texts normalize i) ∧
      (∀ i t, i < texts.length →
        (stackedIds tok texts).val [i, t] =
          (((padIds (batchMaxLen tok texts) (tok (texts.getD i ""))).getD t 0 : ℕ) : ℚ)) := by
  refine ⟨_, encodeBatch_eq sqrtFn fwd tok texts normalize n L H hdims, by simp, ?_, ?_⟩
  · intro i hi
    rw [List.getD_eq_getElem _ _ (by simpa using hi), List.getElem_map, List.getElem_range]
  · intro i t hi
    have hlen : i < (((texts.map tok).map (padIds (batchMaxLen tok texts))).map
        Tensor.ofIds).length := by simpa using hi
    simp only [stackedIds, Tensor.stack0, List.headD_cons, List.tail_cons]
    rw [List.getD_eq_getElem _ _ hlen, List.getElem_map, List.getElem_map, List.getElem_map]
    simp [Tensor.ofIds, List.getD, List.getElem?_eq_getElem hi]

/-- Witness for `encode_batch_preserves_order` on the batch `["a", "bb"]`. -/
theorem encode_batch_preserves_order_witness :
    ∃ rs, encodeBatchTexts sqrtEx fwdEx tokEx ["a", "bb"] false = some rs ∧
      rs.length = (["a", "bb"] : List String).length ∧
      (∀ i, i < (["a", "bb"] : List String).length →
        rs.getD i [] = rowEmbedding sqrtEx fwdEx tokEx ["a", "bb"] false i) ∧
      (∀ i t, i < (["a", "bb"] : List String).length →
        (stackedIds tokEx ["a", "bb"]).val [i, t] =
          (((padIds (batchMaxLen tokEx ["a", "bb"]) (tokEx ((["a", "bb"] : List String).getD i ""))).getD t 0 : ℕ) : ℚ)) :=
  encode_batch_preserves_order sqrtEx fwdEx tokEx ["a", "bb"] false 2 2 1 (by decide)

/-- The C10 claim is false on the code: the mixed batch `["", "hi"]` does
not silently drop the empty text — the filter leaves the single text
"hi", `encode_texts` routes it to the single-text path, and that path
fails on `to_vec1` of the rank-3 forward output, so the whole batch call
reports an error. -/
theorem batch_drop_not_silent_cex :
    ((∃ t ∈ (["", "hi"] : List String), trimEmpty t = true) ∧
      (∃ t ∈ (["", "hi"] : List String), trimEmpty t = false)) ∧
    encodeBatchUseCase (Except.ok ModelConfig.default)
        (serviceEncodeBatch (encodeTexts sqrtEx fwdEx tokEx) (Except.ok ModelConfig.default))
        ["", "hi"] true = Except.error "Encoding failed" := by
  constructor
  · exact ⟨⟨"", by simp, by decide⟩, ⟨"hi", by simp, by decide⟩⟩
  · rfl

/-- C10 amended: a mixed batch is silently filtered only when at least two
texts survive the filter (and the forward output is well-shaped): then the
call returns `ok` with the `texts` field exactly the non-empty texts — a
sublist of the input, so in the original relative order — and one
embedding per kept text, the count derived from the batch path itself.
(When exactly one text survives, the call instead errors through the
single-text path — see the counterexample.) -/
theorem batch_drops_empty_when_multiple (sqrtFn : ℚ → ℚ) (fwd : Fwd) (tok : String → List ℕ)
    (cfg : ModelConfig) (texts : List String) (normalize : Bool) (n L H : ℕ)
    (hmix : ∃ t ∈ texts, trimEmpty t = true)
    (h2 : 2 ≤ (validTexts texts).length)
    (hsize : (validTexts texts).length ≤ 100)
    (hdims : (batchForward fwd tok (validTexts texts)).dims = [n, L, H]) :
    ∃ es, encodeBatchUseCase (Except.ok cfg)
        (serviceEncodeBatch (encodeTexts sqrtFn fwd tok) (Except.ok cfg)) texts normalize =
          Except.ok ⟨es, validTexts texts, cfg.model_id⟩ ∧
      es.length = (validTexts texts).length ∧
      (validTexts texts).Sublist texts := by
  have hne : validTexts texts ≠ [] := by
    intro h0
    rw [h0] at h2
    simp at h2
  have htne : texts ≠ [] := texts_ne_nil_of_valid hne
  have hnot1 : ¬ (validTexts texts).length = 1 := by omega
  have henc : encodeTexts sqrtFn fwd tok (validTexts texts) normalize =
      some ((List.range (validTexts texts).length).map
        (rowEmbedding sqrtFn fwd tok (validTexts texts) normalize)) := by
    rw [encodeTexts, if_neg hnot1]
    exact encodeBatch_eq sqrtFn fwd tok (validTexts texts) normalize n L H hdims
  refine ⟨(List.range (validTexts texts).length).map
    (rowEmbedding sqrtFn fwd tok (validTexts texts) normalize), ?_, by simp,
    List.filter_sublist _⟩
  have hesb : ((List.range (validTexts texts).length).map
      (rowEmbedding sqrtFn fwd tok (validTexts texts) normalize)).isEmpty = false := by
    cases hv : (List.range (validTexts texts).length).map
        (rowEmbedding sqrtFn fwd tok (validTexts texts) normalize) with
    | nil =>
      have hlen0 := congrArg List.length hv
      simp at hlen0
      exact absurd hlen0 hne
    | cons x xs => rfl
  cases texts with
  | nil => exact absurd rfl htne
  | cons a l =>
    have hvne : (validTexts (a :: l)).isEmpty = false := by simp [List.isEmpty_iff, hne]
    have hnot : ¬ (validTexts (a :: l)).length > 100 := by omega
    simp [encodeBatchUseCase, hvne, hnot, afterSizeCheck, serviceEncodeBatch, henc, hesb]

/-- Witness for `batch_drops_empty_when_multiple` on the mixed batch
`["", "a", "bb"]`, whose two survivors go through the batch path. -/
theorem batch_drops_empty_when_multiple_witness :
    ∃ es, encodeBatchUseCase (Except.ok ModelConfig.default)
        (serviceEncodeBatch (encodeTexts sqrtEx fwdEx tokEx) (Except.ok ModelConfig.default))
        ["", "a", "bb"] false =
          Except.ok ⟨es, validTexts ["", "a", "bb"], ModelConfig.default.model_id⟩ ∧
      es.length = (validTexts ["", "a", "bb"]).length ∧
      (validTexts ["", "a", "bb"]).Sublist ["", "a", "bb"] :=
  batch_drops_empty_when_multiple sqrtEx fwdEx tokEx ModelConfig.default ["", "a", "bb"]
    false 2 2 1 (by decide) (by decide) (by decide) (by decide)

/-- C3: for a non-degenerate row (nonzero norm denominator, with the
square root exact on the row's sum of squares), the batch path with
`normalize = true` returns an embedding whose sum of squares — the square
of its L2 norm — is exactly 1. -/
theorem normalized_embedding_unit_norm (sqrtFn : ℚ → ℚ) (fwd : Fwd) (tok : String → List ℕ)
    (texts : List String) (n L H i : ℕ)
    (hdims : (batchForward fwd tok texts).dims = [n, L, H])
    (hi : i < texts.length)
    (hexact : rowNormDenom sqrtFn fwd tok texts i * rowNormDenom sqrtFn fwd tok texts i =
      rowSumSq fwd tok texts i)
    (hnz : rowNormDenom sqrtFn fwd tok texts i ≠ 0) :
    ∃ rs, encodeBatchTexts sqrtFn fwd tok texts true = some rs ∧
      sumSq (rs.getD i []) = 1 := by
  refine ⟨_, encodeBatch_eq sqrtFn fwd tok texts true n L H hdims, ?_⟩
  rw [List.getD_eq_getElem _ _ (by simpa using hi), List.getElem_map, List.getElem_range]
  have hS : rowSumSq fwd tok texts i ≠ 0 := by
    rw [← hexact]
    exact mul_ne_zero hnz hnz
  rw [rowEmbedding]
  simp only [if_true]
  rw [sumSq, List.map_map]
  have : ((List.range ((batchForward fwd tok texts).dims.getD 2 0)).map
      ((fun x => x * x) ∘ fun h => pooledVal fwd tok texts i h /
        rowNormDenom sqrtFn fwd tok texts i)).sum =
      ∑ h ∈ Finset.range ((batchForward fwd tok texts).dims.getD 2 0),
        (pooledVal fwd tok texts i h * pooledVal fwd tok texts i h) /
          (rowNormDenom sqrtFn fwd tok texts i * rowNormDenom sqrtFn fwd tok texts i) := by
    rw [sum_map_range]
    apply Finset.sum_congr rfl
    intro h _
    rw [Function.comp_apply, div_mul_div_comm]
  rw [this, ← Finset.sum_div, hexact]
  exact div_self hS

/-- Witness for `normalized_embedding_unit_norm`: constant hidden state 1,
no padding, exact square root 1. -/
theorem normalized_embedding_unit_norm_witness :
    ∃ rs, encodeBatchTexts sqrtOne fwdOne tokEx ["a", "a"] true = some rs ∧
      sumSq (rs.getD 0 []) = 1 :=
  normalized_embedding_unit_norm sqrtOne fwdOne tokEx ["a", "a"] 2 1 1 0
    (by decide) (by decide)
    (by simp [rowNormDenom, rowSumSq, pooledVal, adjRow, sqrtOne, batchForward, fwdOne,
      stackedIds, stackedMask, Tensor.stack0, Tensor.ofIds, Tensor.zerosLike, batchMaxLen,
      padIds, attnMask, tokEx, Finset.sum_range_one])
    (by simp [rowNormDenom, sqrtOne])

/-- The C2 claim is violated by the code: the single-text path applies no
pooling at all — it feeds the rank-3 forward output `[1, seq, hidden]`
(optionally after `normalize_l2`, which preserves the shape) straight to
`to_vec1`, which fails on any tensor that is not rank 1. Encoding a single
text therefore always errors and cannot match the batch path. -/
theorem encode_single_rank3_fails (sqrtFn : ℚ → ℚ) (fwd : Fwd) (tok : String → List ℕ)
    (text : String) (normalize : Bool) (a b c : ℕ)
    (hdims : (fwd ((Tensor.ofIds (tok text)).unsqueeze0)
      ((Tensor.ofIds (tok text)).unsqueeze0).zerosLike none).dims = [a, b, c]) :
    encodeSingleText sqrtFn fwd tok text normalize = none := by
  unfold encodeSingleText
  cases normalize <;>
    simp [normalizeL2, Tensor.broadcastDiv, Tensor.toVec1, hdims]

/-- Witness for `encode_single_rank3_fails`: encoding the single text
"hello" fails with the rank-3-shaped forward output. -/
theorem encode_single_rank3_fails_witness :
    encodeSingleText sqrtEx fwdEx tokEx "hello" true = none :=
  encode_single_rank3_fails sqrtEx fwdEx tokEx "hello" true 1 1 1 (by decide)

theorem cellOk_complete (hub : Hub) (cell₀ : Option ModelComponents)
    (x : Option PartialModel) (h : CellOk hub cell₀ x) :
    ∀ p, x = some p → p.complete = true := by
  intro p hp
  rcases h with h | ⟨cfg, c, _, h⟩
  · rw [hp] at h
    cases cell₀ with
    | none => simp at h
    | some c0 =>
      have hpc : p = ModelComponents.toPartial c0 := by simpa using h
      rw [hpc]
      simp [ModelComponents.toPartial, PartialModel.complete]
  · rw [hp] at h
    cases h
    simp [ModelComponents.toPartial, PartialModel.complete]

theorem swap_invariant (hub : Hub) (cell₀ : Option ModelComponents) (s : SwapState)
    (hreach : SwapReach hub (initState cell₀) s) :
    CellOk hub cell₀ s.cell ∧ LoaderOk hub s.loader ∧
    (∀ x ∈ s.reads, CellOk hub cell₀ x) := by
  induction hreach with
  | refl =>
    refine ⟨Or.inl rfl, ?_, ?_⟩
    · intro c hc
      exact absurd hc (by simp [initState])
    · intro x hx
      simp [initState] at hx
  | tail t u hr hstep ih =>
    rcases ih with ⟨hcell, hload, hreads⟩
    cases hstep with
    | construct cfg c hidle hdl =>
      refine ⟨hcell, ?_, hreads⟩
      intro c2 hc2
      cases hc2
      exact ⟨cfg, hdl⟩
    | constructFail cfg hidle hdl =>
      refine ⟨hcell, ?_, hreads⟩
      intro c2 hc2
      cases hc2
    | commit c hphase =>
      rcases hload c hphase with ⟨cfg, hdl⟩
      refine ⟨Or.inr ⟨cfg, c, hdl, rfl⟩, ?_, hreads⟩
      intro c2 hc2
      cases hc2
    | read =>
      refine ⟨hcell, hload, ?_⟩
      intro x hx
      rcases List.mem_cons.mp hx with h | h
      · rw [h]; exact hcell
      · exact hreads x h

/-- C4: in every state reachable while a `switch_model` runs against
concurrent `encode` reads, the registry cell holds either the old model
snapshot (or nothing) or a fully constructed model committed by a single
assignment after `download_and_load_model` succeeded — and every value any
read has observed is of the same form; in particular no cell value and no
observed value is ever a torn, partially constructed record. -/
theorem swap_atomicity (hub : Hub) (cell₀ : Option ModelComponents) (s : SwapState)
    (hreach : SwapReach hub (initState cell₀) s) :
    (CellOk hub cell₀ s.cell ∧ ∀ x ∈ s.reads, CellOk hub cell₀ x) ∧
    ((∀ p, s.cell = some p → p.complete = true) ∧
      ∀ x ∈ s.reads, ∀ p, x = some p → p.complete = true) := by
  rcases swap_invariant hub cell₀ s hreach with ⟨hcell, _, hreads⟩
  exact ⟨⟨hcell, hreads⟩,
    cellOk_complete hub cell₀ s.cell hcell,
    fun x hx => cellOk_complete hub cell₀ x (hreads x hx)⟩

/-- Witness for `swap_atomicity` on a concrete three-step trace: the
loader constructs, commits, and a reader then observes the cell. -/
theorem swap_atomicity_witness :
    (CellOk hubOk none
        (⟨some (ModelComponents.toPartial ⟨1, 2, getDevice "cpu", ModelConfig.default⟩),
          LoaderPhase.done,
          [some (ModelComponents.toPartial ⟨1, 2, getDevice "cpu", ModelConfig.default⟩)]⟩ :
          SwapState).cell ∧
      ∀ x ∈ (⟨some (ModelComponents.toPartial ⟨1, 2, getDevice "cpu", ModelConfig.default⟩),
          LoaderPhase.done,
          [some (ModelComponents.toPartial ⟨1, 2, getDevice "cpu", ModelConfig.default⟩)]⟩ :
          SwapState).reads, CellOk hubOk none x) ∧
    ((∀ p, (⟨some (ModelComponents.toPartial ⟨1, 2, getDevice "cpu", ModelConfig.default⟩),
          LoaderPhase.done,
          [some (ModelComponents.toPartial ⟨1, 2, getDevice "cpu", ModelConfig.default⟩)]⟩ :
          SwapState).cell = some p → p.complete = true) ∧
      ∀ x ∈ (⟨some (ModelComponents.toPartial ⟨1, 2, getDevice "cpu", ModelConfig.default⟩),
          LoaderPhase.done,
          [some (ModelComponents.toPartial ⟨1, 2, getDevice "cpu", ModelConfig.default⟩)]⟩ :
          SwapState).reads, ∀ p, x = some p → p.complete = true) :=
  swap_atomicity hubOk none _
    (SwapReach.tail _ _ _
      (SwapReach.tail _ _ _
        (SwapReach.tail _ _ _ (SwapReach.refl _)
          (SwapStep.construct (initState none) ModelConfig.default
            ⟨1, 2, getDevice "cpu", ModelConfig.default⟩ rfl rfl))
        (SwapStep.commit _ ⟨1, 2, getDevice "cpu", ModelConfig.default⟩ rfl))
      (SwapStep.read _))

end Inference
